import Mathlib

/-!
Verification of the spatial-overlap property/style reconciliation pipeline of
the `afry_arcgis2ifc` repository (`copy_properties.py`, `afry_bimshape_lib.py`).

The embedding models the numeric coordinates (Python floats holding survey
coordinates) as rationals.  Candidate distances are stored by their square
(a rational): the Python code stores `np.linalg.norm(...)`, i.e. the square
root; since the square root is strictly monotone on nonnegative numbers, the
order used by the sort is exactly the order of the squared distances, and the
real-valued distance itself is recovered as `Real.sqrt` of the stored key.
Python's `list.sort` is a stable ascending sort, modelled by the stable
`List.insertionSort`.
-/

namespace ArcgisIfc

/-- A 3-component vector, as produced by reshaping `shape.geometry.verts`
into rows of three (x, y, z) coordinates. -/
structure Vec3 where
  x : ℚ
  y : ℚ
  z : ℚ
deriving DecidableEq, Repr

/-- Axis-aligned bounding box as returned by `get_geometry_bounds`:
`[mins[0], mins[1], mins[2], maxs[0], maxs[1], maxs[2]]`. -/
structure BBox where
  xmin : ℚ
  ymin : ℚ
  zmin : ℚ
  xmax : ℚ
  ymax : ℚ
  zmax : ℚ
deriving DecidableEq, Repr

/-- One geometry record of `get_geometry_and_location` /
`get_shape_bbox_centroid`: the `(centroid, shape, bounds)` triple keyed by
`GlobalId` (the opaque shape handle is not modelled). -/
structure GeomRec where
  centroid : Vec3
  bounds : BBox
deriving DecidableEq, Repr

/-- The containment test of `find_overlapping_bbox`, line
`if bbox[0] < centroid[0] < bbox[3] and bbox[1] < centroid[1] < bbox[4]`:
strict inequalities on x and y, z ignored. -/
def bboxContains (b : BBox) (c : Vec3) : Bool :=
  b.xmin < c.x && c.x < b.xmax && b.ymin < c.y && c.y < b.ymax

/-- Squared planar distance from a centroid to the bbox centre, the square of
`np.linalg.norm(centroid[:2] - np.array([(bbox[0]+bbox[3])/2, (bbox[1]+bbox[4])/2]))`. -/
def distSq (c : Vec3) (b : BBox) : ℚ :=
  (c.x - (b.xmin + b.xmax) / 2) ^ 2 + (c.y - (b.ymin + b.ymax) / 2) ^ 2

/-- The real planar Euclidean distance the Python code stores for a candidate:
the square root of the stored squared-distance key. -/
noncomputable def candDistance (d : ℚ) : ℝ :=
  Real.sqrt (d : ℝ)

/-- Ordering of match candidates by their (squared-)distance key, the
`key=lambda x: x[1]` of the sort in `find_overlapping_bbox`. -/
def candLE (a b : String × ℚ) : Prop :=
  a.2 ≤ b.2

instance : DecidableRel candLE := fun a b => inferInstanceAs (Decidable (a.2 ≤ b.2))

instance : IsTotal (String × ℚ) candLE := ⟨fun a b => le_total a.2 b.2⟩

instance : IsTrans (String × ℚ) candLE := ⟨fun _ _ _ h h' => le_trans h h'⟩

/-- The inner loop of `find_overlapping_bbox` for one bbox record: every
centroid strictly inside the bbox in x and y appends `(cent_id, dist)`, and
the list is then sorted ascending by distance (Python's stable sort). -/
def candidatesFor (centroids : List (String × GeomRec)) (brec : GeomRec) :
    List (String × ℚ) :=
  (centroids.filterMap fun ce =>
      if bboxContains brec.bounds ce.2.centroid then
        some (ce.1, distSq ce.2.centroid brec.bounds)
      else
        none).insertionSort candLE

/-- `find_overlapping_bbox(bboxes, centroids)` (copy_properties.py:98-113).
For every bbox entry an (initially empty) candidate list is created and
filled by the inner loop over the centroids. -/
def find_overlapping_bbox (bboxes centroids : List (String × GeomRec)) :
    List (String × List (String × ℚ)) :=
  bboxes.map fun be => (be.1, candidatesFor centroids be.2)

/-- The overlap matcher's output pairs source `bid` with target `cid`:
some candidate list keyed by `bid` contains an entry for `cid`. -/
def matchedPair (bboxes centroids : List (String × GeomRec)) (bid cid : String) : Bool :=
  (find_overlapping_bbox bboxes centroids).any fun p =>
    p.1 == bid && p.2.any fun c => c.1 == cid

/-! ### Python scalar values and the `int(float(...))` cast

Attribute values (from `IfcPropertySingleValue.NominalValue.wrappedValue`)
and the entries of a rule's `values` list are modelled as strings or
integers.  `parseFloat?` models Python's `float()` on finite decimal
literals (optional surrounding whitespace, optional sign, digits with an
optional single dot, optional decimal exponent); inputs outside this
grammar raise `ValueError` in Python, modelled by `none`. -/

/-- Python's `str.strip()`: drop whitespace from both ends (implemented on
the character list so that it evaluates by kernel reduction). -/
def pyStrip (s : String) : String :=
  ⟨((s.data.dropWhile Char.isWhitespace).reverse.dropWhile Char.isWhitespace).reverse⟩

/-- Python's `str.startswith(pre)` (implemented on the character list so
that it evaluates by kernel reduction). -/
def pyStartswith (s pre : String) : Bool :=
  pre.data.isPrefixOf s.data

/-- A Python scalar value: a string or an integer. -/
inductive PyVal where
  | pstr (s : String)
  | pint (n : Int)
deriving DecidableEq, Repr

/-- Python's `str()` on a scalar value. -/
def pyStr : PyVal → String
  | .pstr s => s
  | .pint n => toString n

/-- Numeric value of a decimal digit character. -/
def digitVal (c : Char) : Nat :=
  c.toNat - 48

/-- Natural number denoted by a list of decimal digit characters. -/
def digitsVal (l : List Char) : Nat :=
  l.foldl (fun a c => a * 10 + digitVal c) 0

/-- A nonempty all-digit character list. -/
def allDigits (l : List Char) : Bool :=
  !l.isEmpty && l.all Char.isDigit

/-- Mantissa of a float literal: `digits`, `digits.`, `.digits` or
`digits.digits`; the result is the mantissa's digit string read as a natural
number paired with the number of fractional digits (so that the denoted
value is `n / 10 ^ scale`). -/
def parseMantissa? (cs : List Char) : Option (Nat × Nat) :=
  match cs.splitOn '.' with
  | [ip] => if allDigits ip then some (digitsVal ip, 0) else none
  | [ip, fp] =>
      if (ip.all Char.isDigit && fp.all Char.isDigit) && (!ip.isEmpty || !fp.isEmpty) then
        some (digitsVal ip * 10 ^ fp.length + digitsVal fp, fp.length)
      else
        none
  | _ => none

/-- The rational `n / 10 ^ scale * 10 ^ k` denoted by a mantissa and a
decimal exponent, built with `mkRat` and natural-number powers so that it
evaluates by kernel reduction. -/
def mantissaVal (m : Nat × Nat) (k : Int) : ℚ :=
  let e : Int := k - (m.2 : Int)
  if 0 ≤ e then ((m.1 * 10 ^ e.toNat : Nat) : ℚ)
  else mkRat (m.1 : Int) (10 ^ (-e).toNat)

/-- Strip an optional leading sign; `true` means negative. -/
def splitSign : List Char → Bool × List Char
  | '+' :: r => (false, r)
  | '-' :: r => (true, r)
  | r => (false, r)

/-- A signed all-digit integer literal (the exponent of a float literal). -/
def parseExp? (cs : List Char) : Option Int :=
  let (neg, r) := splitSign cs
  if allDigits r then some (if neg then -(digitsVal r : Int) else (digitsVal r : Int))
  else none

/-- Python's `float()` on finite decimal literals. -/
def parseFloat? (s : String) : Option ℚ :=
  let cs := (pyStrip s).toList
  let (neg, r) := splitSign cs
  let body : Option ℚ :=
    match (r.map fun c => if c = 'E' then 'e' else c).splitOn 'e' with
    | [m] => (parseMantissa? m).map fun mv => mantissaVal mv 0
    | [m, e] =>
        match parseMantissa? m, parseExp? e with
        | some mv, some k => some (mantissaVal mv k)
        | _, _ => none
    | _ => none
  body.map fun q => if neg then -q else q

/-- Python's `int()` on a float: truncation toward zero. -/
def ratTrunc (q : ℚ) : Int :=
  if 0 ≤ q then q.floor else -(-q).floor

/-- Python's `int(float(attr_value))`: the identity on integers, decimal
parsing plus truncation toward zero on strings; `none` models the
`ValueError`/`TypeError` caught by `get_matching_style`. -/
def pyIntOfFloat? : PyVal → Option Int
  | .pint n => some n
  | .pstr s => (parseFloat? s).map ratTrunc

/-- Python's `==` between the cast integer and one entry of
`allowed_values` (`int == str` is `False` in Python). -/
def pyIntEq (n : Int) : PyVal → Bool
  | .pint m => n == m
  | .pstr _ => false

/-! ### The style resolver (`get_matching_style`, afry_bimshape_lib.py:372-396) -/

/-- One entry of the `styles_info` dict: the opaque style handle (`'style'`),
the trigger attribute name (`style_info.get('attribute', '')`; `none` models
a missing key) and the acceptable-value list (`style_info.get('values', [])`;
`none` models a missing key). -/
structure StyleInfo where
  style : Nat
  attr : Option String
  values : Option (List PyVal)
deriving DecidableEq, Repr

/-- Python dict lookup on an association list that may carry key collisions
introduced by the `{k.strip(): v for ...}` comprehension: the later binding
overwrites, so the last matching pair wins. -/
def dictGet? (l : List (String × PyVal)) (k : String) : Option PyVal :=
  (l.reverse.find? fun p => p.1 == k).map fun p => p.2

/-- The cleaned attribute dictionary
`cleaned_attributes = {k.strip(): v for k, v in attributes.items()}`. -/
def cleanAttrs (attributes : List (String × PyVal)) : List (String × PyVal) :=
  attributes.map fun p => (pyStrip p.1, p.2)

/-- Whether one rule of `get_matching_style` matches the cleaned attribute
dictionary: the trimmed trigger attribute is nonempty and present; then
numeric comparison is attempted first (value cast by `int(float(...))`,
membership in `allowed_values`), and only when that cast fails does it fall
back to string equality against the stringified acceptable values; an empty
acceptable-value list matches unconditionally (`or not allowed_values`). -/
def ruleMatches (cleaned : List (String × PyVal)) (info : StyleInfo) : Bool :=
  let attribute_name := pyStrip (info.attr.getD "")
  if attribute_name = "" then false
  else
    match dictGet? cleaned attribute_name with
    | none => false
    | some attr_value =>
        let allowed_values := info.values.getD []
        match pyIntOfFloat? attr_value with
        | some numeric_attr =>
            allowed_values.any (pyIntEq numeric_attr) || allowed_values.isEmpty
        | none =>
            (allowed_values.map pyStr).contains (pyStr attr_value) ||
              allowed_values.isEmpty

/-- The `for style_name, style_info in styles_info.items()` loop of
`get_matching_style`, with the cleaned attribute dict fixed: each rule is
examined in order; a rule whose trimmed trigger name is empty or absent from
the cleaned dict is skipped; otherwise the numeric comparison is tried and,
on cast failure, the string comparison; the first success returns the rule's
name and falling off the loop returns `None`. -/
def styleLoop (cleaned : List (String × PyVal)) :
    List (String × StyleInfo) → Option String
  | [] => none
  | (style_name, style_info) :: rest =>
      let attribute_name := pyStrip (style_info.attr.getD "")
      if attribute_name = "" then styleLoop cleaned rest
      else
        match dictGet? cleaned attribute_name with
        | none => styleLoop cleaned rest
        | some attr_value =>
            let allowed_values := style_info.values.getD []
            match pyIntOfFloat? attr_value with
            | some numeric_attr =>
                if allowed_values.any (pyIntEq numeric_attr) || allowed_values.isEmpty then
                  some style_name
                else styleLoop cleaned rest
            | none =>
                if (allowed_values.map pyStr).contains (pyStr attr_value) ||
                    allowed_values.isEmpty then
                  some style_name
                else styleLoop cleaned rest

/-- `get_matching_style(attributes, styles_info)`: clean the attribute keys,
then scan the rules in configuration-load order. -/
def get_matching_style (attributes : List (String × PyVal))
    (styles_info : List (String × StyleInfo)) : Option String :=
  styleLoop (cleanAttrs attributes) styles_info

/-! ### The property copier (`copy_properties`, copy_properties.py:115-172)
and the style applier (`apply_style_to_element`, copy_properties.py:203-235)

IFC entities are modelled structurally: an element carries its `IsDefinedBy`
relations; a relation is either an `IfcRelDefinesByProperties` (carrying its
`RelatingPropertyDefinition`) or some other relation type; a property
definition is either an `IfcPropertySet` or some other definition type; a
property is either an `IfcPropertySingleValue` or some other property type.
`copy_properties` is side-effect free in the model: its result is the list of
property sets it creates on the target file (each of which the code attaches
to the target element by a fresh `IfcRelDefinesByProperties`).  The pure
model has no failing entity constructors, so the per-property-set
`try`/`except` never fires. -/

/-- An `IfcPropertySingleValue`: the four components the copier clones. -/
structure PropSingleValue where
  name : String
  description : Option String
  nominalValue : Option PyVal
  unit : Option String
deriving DecidableEq, Repr

/-- A property inside a property set: a single value or anything else
(e.g. an `IfcComplexProperty`), which the copier ignores. -/
inductive IfcProperty where
  | single (p : PropSingleValue)
  | other (tag : String)
deriving DecidableEq, Repr

/-- An `IfcPropertySet`. -/
structure PropertySet where
  name : String
  description : Option String
  hasProperties : List IfcProperty
deriving DecidableEq, Repr

/-- A `RelatingPropertyDefinition`: an `IfcPropertySet` or anything else
(e.g. an `IfcElementQuantity`), which the copier skips. -/
inductive PropertyDefinition where
  | pset (ps : PropertySet)
  | other (tag : String)
deriving DecidableEq, Repr

/-- One entry of an element's `IsDefinedBy` inverse attribute. -/
inductive Relation where
  | definesByProperties (pd : PropertyDefinition)
  | other (tag : String)
deriving DecidableEq, Repr

/-- An IFC element: its `IsDefinedBy` relations and its
`Representation.Representations` list of shape-representation handles
(`none` models a `Representation` of `None`, which is falsy like an empty
list). -/
structure Element where
  isDefinedBy : List Relation
  representation : Option (List Nat)
deriving DecidableEq, Repr

/-- The `ignored_psets` list of `copy_properties`. -/
def ignored_psets : List String :=
  ["BaseQuantities", "Qto_", "GSA_", "Pset_", "Common"]

/-- `any(source_pset.Name.startswith(ignore) for ignore in ignored_psets)`. -/
def isIgnoredName (name : String) : Bool :=
  ignored_psets.any fun ignore => pyStartswith name ignore

/-- The inner loop over `source_pset.HasProperties`: clone every
`IfcPropertySingleValue` (name, description, nominal value, unit). -/
def clonedProps (props : List IfcProperty) : List PropSingleValue :=
  props.filterMap fun p =>
    match p with
    | .single sv => some sv
    | .other _ => none

/-- A property set created on the target file, together with its contents
(the fresh GUID, owner history and the `IfcRelDefinesByProperties` created
alongside it are not modelled). -/
structure CreatedPset where
  name : String
  description : Option String
  props : List PropSingleValue
deriving DecidableEq, Repr

/-- `copy_properties(source_elem, ...)`: walk the source element's
`IsDefinedBy` relations; keep only `IfcRelDefinesByProperties` whose
definition is an `IfcPropertySet`; skip sets whose name starts with a
reserved prefix; clone the single-value properties; create the new property
set (and its defines-relation) only when at least one property was cloned. -/
def copy_properties (source_elem : Element) : List CreatedPset :=
  source_elem.isDefinedBy.filterMap fun rel =>
    match rel with
    | .other _ => none
    | .definesByProperties pd =>
        match pd with
        | .other _ => none
        | .pset source_pset =>
            if isIgnoredName source_pset.name then none
            else
              let new_props := clonedProps source_pset.hasProperties
              if new_props.isEmpty then none
              else some ⟨source_pset.name, source_pset.description, new_props⟩

/-- The attribute dictionary built at the top of `apply_style_to_element`:
`attributes[prop.Name] = prop.NominalValue.wrappedValue` for every single
value with a truthy `NominalValue`, over all property sets; a Python dict
assignment keeps the first key position but overwrites the value. -/
def dictInsert (l : List (String × PyVal)) (k : String) (v : PyVal) :
    List (String × PyVal) :=
  if l.any fun p => p.1 == k then
    l.map fun p => if p.1 == k then (k, v) else p
  else
    l ++ [(k, v)]

/-- All `(prop.Name, wrappedValue)` pairs of an element, in iteration
order of the nested loops of `apply_style_to_element`. -/
def elementProps (element : Element) : List (String × PyVal) :=
  element.isDefinedBy.flatMap fun rel =>
    match rel with
    | .definesByProperties (.pset pset) =>
        pset.hasProperties.filterMap fun p =>
          match p with
          | .single sv => sv.nominalValue.map fun v => (sv.name, v)
          | .other _ => none
    | _ => []

/-- The `attributes` dict of `apply_style_to_element`. -/
def elementAttributes (element : Element) : List (String × PyVal) :=
  (elementProps element).foldl (fun d p => dictInsert d p.1 p.2) []

/-- Dict lookup `styles[matching_style]` in the styles dict (unique keys). -/
def stylesGet? (styles : List (String × StyleInfo)) (k : String) :
    Option StyleInfo :=
  (styles.find? fun p => p.1 == k).map fun p => p.2

/-- `apply_style_to_element(element, ifc_file, styles)`: build the attribute
dict, resolve a style name, and when the (truthy) name is a key of `styles`
and the element exposes a first shape representation, attach the style to it
through `ifcopenshell.api.style.assign_representation_styles` — modelled by
the oracle `attach`, whose `Except.error` outcome models any exception
raised inside the `try`, caught and logged by the code.  Returns `true` only
on a successful attachment; every other path returns `false`. -/
def apply_style_to_element (attach : Nat → Nat → Except String Unit)
    (element : Element) (styles : List (String × StyleInfo)) : Bool :=
  let attributes := elementAttributes element
  match get_matching_style attributes styles with
  | none => false
  | some matching_style =>
      if matching_style = "" then false
      else
        match stylesGet? styles matching_style with
        | none => false
        | some style =>
            match element.representation with
            | some (shape_representation :: _) =>
                match attach shape_representation style.style with
                | .ok _ => true
                | .error _ => false
            | _ => false

/-! ### Shared helper lemmas -/

/-- Unfolding `styleLoop` on a cons cell: the head rule decides via
`ruleMatches`, otherwise the loop continues. -/
theorem styleLoop_cons (cleaned : List (String × PyVal)) (style_name : String)
    (style_info : StyleInfo) (rest : List (String × StyleInfo)) :
    styleLoop cleaned ((style_name, style_info) :: rest) =
      if ruleMatches cleaned style_info then some style_name
      else styleLoop cleaned rest := by
  simp only [styleLoop, ruleMatches]
  by_cases h1 : pyStrip (style_info.attr.getD "") = ""
  · rw [if_pos h1, if_pos h1]
    simp
  · rw [if_neg h1, if_neg h1]
    cases hdg : dictGet? cleaned (pyStrip (style_info.attr.getD "")) with
    | none => simp
    | some attr_value =>
        dsimp only
        cases hpi : pyIntOfFloat? attr_value with
        | some numeric_attr => dsimp only
        | none => dsimp only

/-- The rule loop returns exactly the name of the first rule satisfying
`ruleMatches`. -/
theorem styleLoop_eq_find? (cleaned : List (String × PyVal)) :
    ∀ l : List (String × StyleInfo),
      styleLoop cleaned l = (l.find? fun p => ruleMatches cleaned p.2).map Prod.fst
  | [] => rfl
  | (style_name, style_info) :: rest => by
      have ih := styleLoop_eq_find? cleaned rest
      rw [styleLoop_cons, List.find?_cons]
      cases hr : ruleMatches cleaned style_info with
      | true => simp [hr]
      | false => simp [hr, ih]

/-- The resolver as a first-match search over the rule list. -/
theorem get_matching_style_eq_find? (attributes : List (String × PyVal))
    (styles_info : List (String × StyleInfo)) :
    get_matching_style attributes styles_info =
      (styles_info.find? fun p => ruleMatches (cleanAttrs attributes) p.2).map Prod.fst :=
  styleLoop_eq_find? (cleanAttrs attributes) styles_info

/-- A rule whose trimmed trigger attribute name is empty never matches. -/
theorem ruleMatches_of_trim_empty (cleaned : List (String × PyVal))
    (style_info : StyleInfo) (h : pyStrip (style_info.attr.getD "") = "") :
    ruleMatches cleaned style_info = false := by
  simp [ruleMatches, h]

/-! ### Claims about the style resolver -/

/-- C2: the style resolver examines the rules in configuration-load order
and returns the first rule (under `List.find?`) whose per-rule predicate
`ruleMatches` holds of the whitespace-trimmed attribute dictionary —
`ruleMatches` being exactly the code's test: the trimmed trigger attribute
must be present, the numeric comparison (value cast by `int(float(...))`)
is attempted first, and string equality against the stringified
acceptable-value set is used only when that cast fails; when no rule
matches, or no rules are configured, the resolver returns `none`. -/
theorem get_matching_style_first_match_characterisation :
    (∀ (attributes : List (String × PyVal)) (styles_info : List (String × StyleInfo)),
        get_matching_style attributes styles_info =
          (styles_info.find? fun p => ruleMatches (cleanAttrs attributes) p.2).map Prod.fst) ∧
      ∀ attributes : List (String × PyVal), get_matching_style attributes [] = none :=
  ⟨fun attributes styles_info => get_matching_style_eq_find? attributes styles_info,
    fun _ => rfl⟩

/-- C3: first-match law — when two distinct rules both match the attribute
set and no rule before the first of them matches, the resolver returns the
name of the rule appearing earlier in configuration order. -/
theorem get_matching_style_first_match_wins
    (attributes : List (String × PyVal)) (l₁ l₂ l₃ : List (String × StyleInfo))
    (nA nB : String) (iA iB : StyleInfo)
    (hpre : ∀ p ∈ l₁, ruleMatches (cleanAttrs attributes) p.2 = false)
    (hA : ruleMatches (cleanAttrs attributes) iA = true)
    (hB : ruleMatches (cleanAttrs attributes) iB = true) :
    get_matching_style attributes (l₁ ++ (nA, iA) :: l₂ ++ (nB, iB) :: l₃) = some nA := by
  rw [get_matching_style_eq_find?]
  have h₁ : (l₁.find? fun p => ruleMatches (cleanAttrs attributes) p.2) = none :=
    List.find?_eq_none.mpr fun p hp => by simp [hpre p hp]
  have h₂ : (((nA, iA) :: l₂).find? fun p => ruleMatches (cleanAttrs attributes) p.2) =
      some (nA, iA) := by
    rw [List.find?_cons]
    simp [hA]
  rw [List.find?_append, List.find?_append, h₁, h₂]
  simp

/-- C3 witness: rules `A` (trigger `type`, values `[1, 2]`) before `B`
(trigger `type`, values `[1]`) on attributes `{"type": "1"}` resolve to
`"A"` although `B` matches too. -/
theorem get_matching_style_first_match_wins_witness :
    (∀ p ∈ ([] : List (String × StyleInfo)),
        ruleMatches (cleanAttrs [("type", PyVal.pstr "1")]) p.2 = false) ∧
      ruleMatches (cleanAttrs [("type", PyVal.pstr "1")])
          ⟨0, some "type", some [PyVal.pint 1, PyVal.pint 2]⟩ = true ∧
      ruleMatches (cleanAttrs [("type", PyVal.pstr "1")])
          ⟨1, some "type", some [PyVal.pint 1]⟩ = true ∧
      get_matching_style [("type", PyVal.pstr "1")]
          ([] ++ ("A", ⟨0, some "type", some [PyVal.pint 1, PyVal.pint 2]⟩) ::
            [] ++ ("B", ⟨1, some "type", some [PyVal.pint 1]⟩) :: []) = some "A" :=
  ⟨fun p hp => absurd hp (List.not_mem_nil p), by decide, by decide,
    get_matching_style_first_match_wins [("type", PyVal.pstr "1")] [] [] []
      "A" "B" ⟨0, some "type", some [PyVal.pint 1, PyVal.pint 2]⟩
      ⟨1, some "type", some [PyVal.pint 1]⟩
      (fun p hp => absurd hp (List.not_mem_nil p)) (by decide) (by decide)⟩

/-- C7: the style resolver is a pure, deterministic function of its two
arguments — resolving the same attribute map against the same rule
configuration twice yields the same result. -/
theorem get_matching_style_deterministic :
    ∀ (attributes : List (String × PyVal)) (styles_info : List (String × StyleInfo)),
      get_matching_style attributes styles_info = get_matching_style attributes styles_info :=
  fun _ _ => rfl

/-- C9: a rule whose trigger attribute name is missing (modelled by
`attr = none`, which `.get('attribute', '')` turns into `""`) or trims to
the empty string never matches — even when its acceptable-value list is
empty — and the resolver skips it in favour of later rules. -/
theorem empty_trigger_rule_never_matches
    (attributes : List (String × PyVal)) (style_name : String)
    (style_info : StyleInfo) (rest : List (String × StyleInfo))
    (h : pyStrip (style_info.attr.getD "") = "") :
    ruleMatches (cleanAttrs attributes) style_info = false ∧
      get_matching_style attributes ((style_name, style_info) :: rest) =
        get_matching_style attributes rest ∧
      get_matching_style attributes [(style_name, style_info)] = none := by
  have hr := ruleMatches_of_trim_empty (cleanAttrs attributes) style_info h
  refine ⟨hr, ?_, ?_⟩
  · show styleLoop (cleanAttrs attributes) _ = styleLoop (cleanAttrs attributes) _
    rw [styleLoop_cons, hr]
    simp
  · show styleLoop (cleanAttrs attributes) _ = _
    rw [styleLoop_cons, hr]
    simp [styleLoop]

/-- C9 witness: a rule with a missing trigger attribute and an empty value
list never matches and is skipped in favour of a later matching rule. -/
theorem empty_trigger_rule_never_matches_witness :
    pyStrip ((Option.none : Option String).getD "") = "" ∧
      (ruleMatches (cleanAttrs [("type", PyVal.pstr "1")]) ⟨7, none, some []⟩ = false ∧
        get_matching_style [("type", PyVal.pstr "1")]
            [("E", ⟨7, none, some []⟩), ("B", ⟨1, some "type", some [PyVal.pint 1]⟩)] =
          get_matching_style [("type", PyVal.pstr "1")]
            [("B", ⟨1, some "type", some [PyVal.pint 1]⟩)] ∧
        get_matching_style [("type", PyVal.pstr "1")] [("E", ⟨7, none, some []⟩)] = none) :=
  ⟨by decide,
    empty_trigger_rule_never_matches [("type", PyVal.pstr "1")] "E" ⟨7, none, some []⟩
      [("B", ⟨1, some "type", some [PyVal.pint 1]⟩)] (by decide)⟩

/-! ### Claims about the property copier -/

/-- The property sets attached to an element through an
`IfcRelDefinesByProperties` relation. -/
def sourcePsets (e : Element) : List PropertySet :=
  e.isDefinedBy.filterMap fun rel =>
    match rel with
    | .definesByProperties (.pset ps) => some ps
    | _ => none

/-- The pointwise result of `copy_properties` on one relation. -/
def copyStep (rel : Relation) : Option CreatedPset :=
  match rel with
  | .other _ => none
  | .definesByProperties pd =>
      match pd with
      | .other _ => none
      | .pset source_pset =>
          if isIgnoredName source_pset.name then none
          else
            let new_props := clonedProps source_pset.hasProperties
            if new_props.isEmpty then none
            else some ⟨source_pset.name, source_pset.description, new_props⟩

/-- `copy_properties` is the relation-wise `copyStep`. -/
theorem copy_properties_eq_filterMap (e : Element) :
    copy_properties e = e.isDefinedBy.filterMap copyStep :=
  rfl

/-- What `copyStep rel = some cp` tells about `rel`. -/
theorem copyStep_eq_some {rel : Relation} {cp : CreatedPset}
    (h : copyStep rel = some cp) :
    ∃ ps, rel = .definesByProperties (.pset ps) ∧ isIgnoredName ps.name = false ∧
      clonedProps ps.hasProperties ≠ [] ∧
      cp = ⟨ps.name, ps.description, clonedProps ps.hasProperties⟩ := by
  match rel with
  | .other tag => simp [copyStep] at h
  | .definesByProperties (.other tag) => simp [copyStep] at h
  | .definesByProperties (.pset ps) =>
      refine ⟨ps, rfl, ?_⟩
      by_cases hi : isIgnoredName ps.name
      · simp [copyStep, hi] at h
      · by_cases he : (clonedProps ps.hasProperties).isEmpty
        · simp [copyStep, hi, he] at h
        · refine ⟨by simp [hi], by simpa [List.isEmpty_iff] using he, ?_⟩
          simpa [copyStep, hi, he] using h.symm

/-- Membership in `sourcePsets`. -/
theorem mem_sourcePsets {e : Element} {ps : PropertySet} :
    ps ∈ sourcePsets e ↔ Relation.definesByProperties (.pset ps) ∈ e.isDefinedBy := by
  constructor
  · intro h
    obtain ⟨rel, hrel, hsome⟩ := List.mem_filterMap.mp h
    match rel with
    | .other tag => simp at hsome
    | .definesByProperties (.other tag) => simp at hsome
    | .definesByProperties (.pset ps') =>
        obtain rfl : ps' = ps := by simpa using hsome
        exact hrel
  · intro h
    exact List.mem_filterMap.mpr ⟨_, h, rfl⟩

/-- C5: the property copier skips every property set whose name starts with
one of the reserved prefixes (`BaseQuantities`, `Qto_`, `GSA_`, `Pset_`,
`Common`): every created property set keeps the name of a non-reserved
source property set, and a source element all of whose property sets carry
reserved names produces zero new property sets. -/
theorem copy_properties_skips_reserved (source_elem : Element) :
    (∀ cp ∈ copy_properties source_elem,
        isIgnoredName cp.name = false ∧ ∃ ps ∈ sourcePsets source_elem, cp.name = ps.name) ∧
      ((∀ ps ∈ sourcePsets source_elem, isIgnoredName ps.name = true) →
        copy_properties source_elem = []) := by
  constructor
  · intro cp hcp
    rw [copy_properties_eq_filterMap] at hcp
    obtain ⟨rel, hrel, hstep⟩ := List.mem_filterMap.mp hcp
    obtain ⟨ps, rfl, hign, -, rfl⟩ := copyStep_eq_some hstep
    exact ⟨hign, ps, mem_sourcePsets.mpr hrel, rfl⟩
  · intro hall
    rw [copy_properties_eq_filterMap]
    apply List.filterMap_eq_nil_iff.mpr
    intro rel hrel
    match rel with
    | .other tag => rfl
    | .definesByProperties (.other tag) => rfl
    | .definesByProperties (.pset ps) =>
        have := hall ps (mem_sourcePsets.mpr hrel)
        simp [copyStep, this]

/-- C5 witness: a source element carrying only reserved-prefixed property
sets yields zero created property sets. -/
theorem copy_properties_skips_reserved_witness :
    (∀ ps ∈ sourcePsets
        ⟨[.definesByProperties (.pset ⟨"Qto_BaseQuantities", none,
            [.single ⟨"Area", none, some (PyVal.pint 12), none⟩]⟩),
          .definesByProperties (.pset ⟨"Pset_BuildingCommon", none,
            [.single ⟨"IsLandmarked", none, some (PyVal.pstr "T"), none⟩]⟩)], none⟩,
        isIgnoredName ps.name = true) ∧
      copy_properties
        ⟨[.definesByProperties (.pset ⟨"Qto_BaseQuantities", none,
            [.single ⟨"Area", none, some (PyVal.pint 12), none⟩]⟩),
          .definesByProperties (.pset ⟨"Pset_BuildingCommon", none,
            [.single ⟨"IsLandmarked", none, some (PyVal.pstr "T"), none⟩]⟩)], none⟩ = [] :=
  ⟨by decide,
    (copy_properties_skips_reserved
      ⟨[.definesByProperties (.pset ⟨"Qto_BaseQuantities", none,
          [.single ⟨"Area", none, some (PyVal.pint 12), none⟩]⟩),
        .definesByProperties (.pset ⟨"Pset_BuildingCommon", none,
          [.single ⟨"IsLandmarked", none, some (PyVal.pstr "T"), none⟩]⟩)], none⟩).2
      (by decide)⟩

/-- C10: the property copier clones only `IfcPropertySingleValue`
properties, creates a property set on the target only when at least one
property was cloned (every created set is nonempty and consists of clones
of single-value source properties), and a non-reserved source property set
containing no single-value properties contributes nothing: deleting it from
the source element leaves the copier's output unchanged. -/
theorem copy_properties_single_values_only (source_elem : Element) :
    (∀ cp ∈ copy_properties source_elem,
        cp.props ≠ [] ∧
          ∀ p ∈ cp.props, ∃ ps ∈ sourcePsets source_elem,
            IfcProperty.single p ∈ ps.hasProperties) ∧
      (∀ (pre post : List Relation) (rep : Option (List Nat)) (ps : PropertySet),
        isIgnoredName ps.name = false →
        clonedProps ps.hasProperties = [] →
        copy_properties ⟨pre ++ .definesByProperties (.pset ps) :: post, rep⟩ =
          copy_properties ⟨pre ++ post, rep⟩) := by
  constructor
  · intro cp hcp
    rw [copy_properties_eq_filterMap] at hcp
    obtain ⟨rel, hrel, hstep⟩ := List.mem_filterMap.mp hcp
    obtain ⟨ps, rfl, -, hne, rfl⟩ := copyStep_eq_some hstep
    refine ⟨hne, ?_⟩
    intro p hp
    refine ⟨ps, mem_sourcePsets.mpr hrel, ?_⟩
    obtain ⟨q, hq, hsome⟩ := List.mem_filterMap.mp hp
    match q with
    | .single sv =>
        obtain rfl : sv = p := by simpa using hsome
        exact hq
    | .other tag => simp at hsome
  · intro pre post rep ps hign hnil
    rw [copy_properties_eq_filterMap, copy_properties_eq_filterMap]
    show (pre ++ .definesByProperties (.pset ps) :: post).filterMap copyStep = _
    rw [List.filterMap_append, List.filterMap_append]
    have hstep : copyStep (.definesByProperties (.pset ps)) = none := by
      simp [copyStep, hign, hnil]
    simp [List.filterMap_cons, hstep]

/-- C10 witness: a non-reserved source property set with no single-value
properties adds nothing, and created sets contain only cloned single
values. -/
theorem copy_properties_single_values_only_witness :
    isIgnoredName "Footprint" = false ∧
      clonedProps [IfcProperty.other "IfcComplexProperty"] = [] ∧
      copy_properties
          ⟨[.definesByProperties (.pset ⟨"Footprint", none,
              [IfcProperty.other "IfcComplexProperty"]⟩),
            .definesByProperties (.pset ⟨"Data", none,
              [.single ⟨"bygningstype", none, some (PyVal.pint 181), none⟩]⟩)], none⟩ =
        copy_properties
          ⟨[.definesByProperties (.pset ⟨"Data", none,
              [.single ⟨"bygningstype", none, some (PyVal.pint 181), none⟩]⟩)], none⟩ :=
  ⟨by decide, by decide,
    (copy_properties_single_values_only
        ⟨[.definesByProperties (.pset ⟨"Footprint", none,
            [IfcProperty.other "IfcComplexProperty"]⟩),
          .definesByProperties (.pset ⟨"Data", none,
            [.single ⟨"bygningstype", none, some (PyVal.pint 181), none⟩]⟩)], none⟩).2
      [] [.definesByProperties (.pset ⟨"Data", none,
          [.single ⟨"bygningstype", none, some (PyVal.pint 181), none⟩]⟩)]
      none ⟨"Footprint", none, [IfcProperty.other "IfcComplexProperty"]⟩
      (by decide) (by decide)⟩

/-! ### Claim about the style applier -/

/-- C6: the style applier returns `true` exactly when the resolved (truthy)
style name is a key of the styles dictionary, the element exposes a first
visual representation, and the toolkit attachment succeeds; whenever the
element has no representation or the attachment raises (the `Except.error`
outcome of the `attach` oracle, caught and logged by the code), it returns
`false` — the function is total, so the batch never aborts. -/
theorem apply_style_to_element_true_iff
    (attach : Nat → Nat → Except String Unit) (element : Element)
    (styles : List (String × StyleInfo)) :
    apply_style_to_element attach element styles = true ↔
      ∃ (matching_style : String) (style : StyleInfo) (r : Nat) (rest : List Nat),
        get_matching_style (elementAttributes element) styles = some matching_style ∧
          matching_style ≠ "" ∧
          stylesGet? styles matching_style = some style ∧
          element.representation = some (r :: rest) ∧
          attach r style.style = Except.ok () := by
  unfold apply_style_to_element
  cases hm : get_matching_style (elementAttributes element) styles with
  | none => simp [hm]
  | some matching_style =>
      by_cases hemp : matching_style = ""
      · subst hemp
        simp [hm]
      · cases hs : stylesGet? styles matching_style with
        | none => simp [hm, hemp, hs]
        | some style =>
            match hr : element.representation with
            | none => simp [hm, hemp, hs, hr]
            | some [] => simp [hm, hemp, hs, hr]
            | some (r :: rest) =>
                cases ha : attach r style.style with
                | ok u =>
                    obtain rfl : u = () := rfl
                    simp [hm, hemp, hs, hr, ha]
                | error e => simp [hm, hemp, hs, hr, ha]

/-! ### Claims about the overlap matcher -/

/-- In an association list with no duplicate keys, a key determines its
value. -/
theorem value_eq_of_nodup_keys {α β : Type} :
    ∀ {l : List (α × β)}, (l.map Prod.fst).Nodup →
      ∀ {k : α} {a b : β}, (k, a) ∈ l → (k, b) ∈ l → a = b
  | [], _, _, _, _, ha, _ => absurd ha (List.not_mem_nil _)
  | p :: t, h, k, a, b, ha, hb => by
      rw [List.map_cons, List.nodup_cons] at h
      rcases List.mem_cons.mp ha with rfl | ha'
      · rcases List.mem_cons.mp hb with heq | hb'
        · exact ((Prod.mk.injEq _ _ _ _).mp heq).2.symm
        · exact absurd (List.mem_map.mpr ⟨(k, b), hb', rfl⟩) h.1
      · rcases List.mem_cons.mp hb with rfl | hb'
        · exact absurd (List.mem_map.mpr ⟨(k, a), ha', rfl⟩) h.1
        · exact value_eq_of_nodup_keys h.2 ha' hb'

/-- Membership in the inner loop's candidate list. -/
theorem mem_candidatesFor {centroids : List (String × GeomRec)} {brec : GeomRec}
    {cid : String} {d : ℚ} :
    (cid, d) ∈ candidatesFor centroids brec ↔
      ∃ crec : GeomRec, (cid, crec) ∈ centroids ∧
        bboxContains brec.bounds crec.centroid = true ∧
        d = distSq crec.centroid brec.bounds := by
  unfold candidatesFor
  rw [List.mem_insertionSort, List.mem_filterMap]
  constructor
  · rintro ⟨⟨cid', crec⟩, hmem, hsome⟩
    by_cases hcont : bboxContains brec.bounds crec.centroid
    · refine ⟨crec, ?_, hcont, ?_⟩
      · obtain ⟨rfl, -⟩ : cid' = cid ∧ distSq crec.centroid brec.bounds = d := by
          simpa [hcont] using hsome
        exact hmem
      · obtain ⟨-, hd⟩ : cid' = cid ∧ distSq crec.centroid brec.bounds = d := by
          simpa [hcont] using hsome
        exact hd.symm
    · simp [hcont] at hsome
  · rintro ⟨crec, hmem, hcont, rfl⟩
    exact ⟨(cid, crec), hmem, by simp [hcont]⟩

/-- The four strict planar inequalities of the containment test. -/
theorem bboxContains_iff {b : BBox} {c : Vec3} :
    bboxContains b c = true ↔
      (b.xmin < c.x ∧ c.x < b.xmax ∧ b.ymin < c.y ∧ c.y < b.ymax) := by
  simp [bboxContains, and_assoc]

/-- C1: for every source bounding box `B` and every target centroid `C`
(keys unambiguous on both sides), the overlap matcher pairs their records
if and only if `B.xmin < C.x < B.xmax` and `B.ymin < C.y < B.ymax` — strict
inequalities, z ignored, boundary-touching centroids excluded. -/
theorem overlap_matcher_pairs_iff (bboxes centroids : List (String × GeomRec))
    (bid cid : String) (brec crec : GeomRec)
    (hb : (bboxes.map Prod.fst).Nodup) (hc : (centroids.map Prod.fst).Nodup)
    (hbmem : (bid, brec) ∈ bboxes) (hcmem : (cid, crec) ∈ centroids) :
    matchedPair bboxes centroids bid cid = true ↔
      (brec.bounds.xmin < crec.centroid.x ∧ crec.centroid.x < brec.bounds.xmax ∧
        brec.bounds.ymin < crec.centroid.y ∧ crec.centroid.y < brec.bounds.ymax) := by
  rw [← bboxContains_iff]
  unfold matchedPair
  rw [List.any_eq_true]
  constructor
  · rintro ⟨p, hp, hpred⟩
    obtain ⟨be, hbe, rfl⟩ := List.mem_map.mp hp
    rw [Bool.and_eq_true] at hpred
    obtain ⟨hbid, hany⟩ := hpred
    have hbid' : be.1 = bid := by simpa using hbid
    obtain ⟨c, hcmem', hcid⟩ := List.any_eq_true.mp hany
    have hcid' : c.1 = cid := by simpa using hcid
    obtain ⟨crec', hcrec', hcont, -⟩ :=
      mem_candidatesFor.mp (show (c.1, c.2) ∈ candidatesFor centroids be.2 from hcmem')
    rw [hcid'] at hcrec'
    have hbe' : (bid, be.2) ∈ bboxes := by rw [← hbid']; exact hbe
    obtain rfl : be.2 = brec := value_eq_of_nodup_keys hb hbe' hbmem
    obtain rfl : crec' = crec := value_eq_of_nodup_keys hc hcrec' hcmem
    exact hcont
  · intro hcont
    refine ⟨(bid, candidatesFor centroids brec), List.mem_map.mpr ⟨(bid, brec), hbmem, rfl⟩, ?_⟩
    rw [Bool.and_eq_true]
    refine ⟨by simp, List.any_eq_true.mpr ?_⟩
    exact ⟨(cid, distSq crec.centroid brec.bounds),
      mem_candidatesFor.mpr ⟨crec, hcmem, hcont, rfl⟩, by simp⟩

unseal Rat.mul Rat.inv Rat.add Rat.sub in
/-- C1 witness: bbox `[0,0,0,10,10,5]` with centroid `[5,5,2]` matches,
with planar distance `0` to the bbox centre, and the same bbox with
centroid `[10,10,2]` does not match (boundary excluded). -/
theorem overlap_matcher_pairs_iff_witness :
    matchedPair [("S", ⟨⟨0, 0, 0⟩, ⟨0, 0, 0, 10, 10, 5⟩⟩)]
        [("T", ⟨⟨5, 5, 2⟩, ⟨0, 0, 0, 0, 0, 0⟩⟩), ("U", ⟨⟨10, 10, 2⟩, ⟨0, 0, 0, 0, 0, 0⟩⟩)]
        "S" "T" = true ∧
      matchedPair [("S", ⟨⟨0, 0, 0⟩, ⟨0, 0, 0, 10, 10, 5⟩⟩)]
        [("T", ⟨⟨5, 5, 2⟩, ⟨0, 0, 0, 0, 0, 0⟩⟩), ("U", ⟨⟨10, 10, 2⟩, ⟨0, 0, 0, 0, 0, 0⟩⟩)]
        "S" "U" = false ∧
      candDistance (distSq ⟨5, 5, 2⟩ ⟨0, 0, 0, 10, 10, 5⟩) = 0 := by
  refine ⟨?_, ?_, ?_⟩
  · exact (overlap_matcher_pairs_iff
      [("S", ⟨⟨0, 0, 0⟩, ⟨0, 0, 0, 10, 10, 5⟩⟩)]
      [("T", ⟨⟨5, 5, 2⟩, ⟨0, 0, 0, 0, 0, 0⟩⟩), ("U", ⟨⟨10, 10, 2⟩, ⟨0, 0, 0, 0, 0, 0⟩⟩)]
      "S" "T" ⟨⟨0, 0, 0⟩, ⟨0, 0, 0, 10, 10, 5⟩⟩ ⟨⟨5, 5, 2⟩, ⟨0, 0, 0, 0, 0, 0⟩⟩
      (by decide) (by decide) (by decide) (by decide)).mpr (by decide)
  · decide
  · rw [show distSq ⟨5, 5, 2⟩ ⟨0, 0, 0, 10, 10, 5⟩ = 0 by decide]
    simp [candDistance]

/-- C4: every candidate list in the overlap matcher's output with two or
more candidates is non-decreasing in (real) planar distance. -/
theorem candidate_lists_sorted_by_distance (bboxes centroids : List (String × GeomRec))
    (bid : String) (l : List (String × ℚ))
    (hmem : (bid, l) ∈ find_overlapping_bbox bboxes centroids)
    (hlen : 2 ≤ l.length) :
    List.Sorted (fun a b : String × ℚ => candDistance a.2 ≤ candDistance b.2) l := by
  obtain ⟨be, hbe, heq⟩ := List.mem_map.mp hmem
  obtain ⟨-, rfl⟩ := (Prod.mk.injEq _ _ _ _).mp heq
  have hs : List.Sorted candLE (candidatesFor centroids be.2) :=
    List.sorted_insertionSort candLE _
  exact hs.imp fun h => Real.sqrt_le_sqrt (by exact_mod_cast h)

unseal Rat.mul Rat.inv Rat.add Rat.sub in
/-- C4 witness: one source bbox containing two centroids yields the
candidate list `[("T", 0), ("U", 1)]`, sorted by distance. -/
theorem candidate_lists_sorted_by_distance_witness :
    ("S", [("T", (0 : ℚ)), ("U", 1)]) ∈
        find_overlapping_bbox [("S", ⟨⟨0, 0, 0⟩, ⟨0, 0, 0, 10, 10, 5⟩⟩)]
          [("T", ⟨⟨5, 5, 1⟩, ⟨0, 0, 0, 0, 0, 0⟩⟩), ("U", ⟨⟨6, 5, 1⟩, ⟨0, 0, 0, 0, 0, 0⟩⟩)] ∧
      2 ≤ ([("T", (0 : ℚ)), ("U", 1)]).length ∧
      List.Sorted (fun a b : String × ℚ => candDistance a.2 ≤ candDistance b.2)
        [("T", (0 : ℚ)), ("U", 1)] :=
  ⟨by decide, by decide,
    candidate_lists_sorted_by_distance [("S", ⟨⟨0, 0, 0⟩, ⟨0, 0, 0, 10, 10, 5⟩⟩)]
      [("T", ⟨⟨5, 5, 1⟩, ⟨0, 0, 0, 0, 0, 0⟩⟩), ("U", ⟨⟨6, 5, 1⟩, ⟨0, 0, 0, 0, 0, 0⟩⟩)]
      "S" [("T", (0 : ℚ)), ("U", 1)] (by decide) (by decide)⟩

/-- C8: the overlap matcher's output has exactly the source ids as keys, in
order; a source bbox containing no centroid is mapped to the empty
candidate list rather than omitted. -/
theorem overlap_matcher_keys_exact (bboxes centroids : List (String × GeomRec)) :
    (find_overlapping_bbox bboxes centroids).map Prod.fst = bboxes.map Prod.fst ∧
      ∀ bid brec, (bid, brec) ∈ bboxes →
        (∀ ce ∈ centroids, bboxContains brec.bounds ce.2.centroid = false) →
        (bid, ([] : List (String × ℚ))) ∈ find_overlapping_bbox bboxes centroids := by
  constructor
  · simp [find_overlapping_bbox, List.map_map, Function.comp]
  · intro bid brec hmem hnone
    have hraw : (centroids.filterMap fun ce =>
        if bboxContains brec.bounds ce.2.centroid then
          some (ce.1, distSq ce.2.centroid brec.bounds)
        else none) = [] :=
      List.filterMap_eq_nil_iff.mpr fun ce hce => by simp [hnone ce hce]
    have hcand : candidatesFor centroids brec = [] := by
      unfold candidatesFor
      rw [hraw]
      rfl
    exact List.mem_map.mpr ⟨(bid, brec), hmem, by rw [← hcand]⟩

/-- C8 witness: a source bbox containing no centroid still appears in the
output, with the empty candidate list. -/
theorem overlap_matcher_keys_exact_witness :
    (∀ ce ∈ [("T", (⟨⟨5, 5, 5⟩, ⟨0, 0, 0, 0, 0, 0⟩⟩ : GeomRec))],
        bboxContains (⟨⟨0, 0, 0⟩, ⟨0, 0, 0, 1, 1, 1⟩⟩ : GeomRec).bounds ce.2.centroid = false) ∧
      ("S", ([] : List (String × ℚ))) ∈
        find_overlapping_bbox [("S", ⟨⟨0, 0, 0⟩, ⟨0, 0, 0, 1, 1, 1⟩⟩)]
          [("T", ⟨⟨5, 5, 5⟩, ⟨0, 0, 0, 0, 0, 0⟩⟩)] :=
  ⟨by decide,
    (overlap_matcher_keys_exact [("S", ⟨⟨0, 0, 0⟩, ⟨0, 0, 0, 1, 1, 1⟩⟩)]
        [("T", ⟨⟨5, 5, 5⟩, ⟨0, 0, 0, 0, 0, 0⟩⟩)]).2
      "S" ⟨⟨0, 0, 0⟩, ⟨0, 0, 0, 1, 1, 1⟩⟩ (by decide) (by decide)⟩

end ArcgisIfc
